import Mathlib

/-!
# Cart store and catalog filter of `src/src/main.jsx`

A shallow embedding of the state-updater functions of `CartProvider`
(`addToCart`, `updateQuantity`, `removeItem`, `clearCart`), of the state
initializer that reads `localStorage`, of the derived cart total and of the
catalog filter of `ProductListing`.

Conventions of the embedding:

* a JavaScript value that is "a string or `undefined`" is an `Option String`;
* the prices and quantities held by cart lines are integers (`Int`): every
  price of the catalog and every quantity the views produce is one;
* the cart total is computed in binary64, as the source does: a finite number
  is the rational it denotes, `roundF64` is the rounding every arithmetic
  operation ends with, and `none` stands for a result that is not finite;
* a `setCart(prev => ...)` updater is the pure function from the previous cart
  to the next one; an updater that throws a `TypeError` returns `Except.error`;
* array positions are `Int`, since the source indexes with plain numbers that
  may be negative or past the end.
-/

namespace CartStore

/-- A catalog record, as in the `products` array. -/
structure Product where
  id : String
  name : String
  category : String
  price : Int
  sizes : List String
  colors : List String
  images : List String
deriving DecidableEq, Repr

/-- A cart line: the object `{ ...product, quantity, selectedSize, selectedColor }`. -/
structure CartLine where
  id : String
  name : String
  category : String
  price : Int
  sizes : List String
  colors : List String
  images : List String
  selectedSize : Option String
  selectedColor : Option String
  quantity : Int
deriving DecidableEq, Repr

/-- The cart state: an ordered array of lines. -/
abbrev Cart := List CartLine

/-- The predicate handed to `prev.findIndex` in `addToCart`:
`item.id === product.id && item.selectedSize === selectedSize &&
item.selectedColor === selectedColor`. -/
def sameLine (product : Product) (selectedSize selectedColor : Option String)
    (item : CartLine) : Bool :=
  decide (item.id = product.id) && decide (item.selectedSize = selectedSize)
    && decide (item.selectedColor = selectedColor)

/-- `Array.prototype.findIndex`: position of the first element satisfying the
predicate, `-1` when there is none. -/
def findIndex {α : Type} (p : α → Bool) : List α → Int
  | [] => -1
  | x :: xs =>
    if p x then 0
    else
      let r := findIndex p xs
      if r > -1 then r + 1 else -1

/-- Property read `arr[index]` with a numeric index: the element when the index
is a position of the array, `undefined` (`none`) otherwise. -/
def getAt {α : Type} (xs : List α) (index : Int) : Option α :=
  if 0 ≤ index then xs.get? index.toNat else none

/-- The object literal `{ ...product, quantity: 1, selectedSize, selectedColor }`. -/
def newLine (product : Product) (selectedSize selectedColor : Option String) : CartLine :=
  { id := product.id, name := product.name, category := product.category,
    price := product.price, sizes := product.sizes, colors := product.colors,
    images := product.images, selectedSize := selectedSize,
    selectedColor := selectedColor, quantity := 1 }

/-- The updater of `addToCart(product, selectedSize, selectedColor)`:
`index = prev.findIndex(...)`; when `index > -1`, `updated[index].quantity += 1`
on a copy of the array, otherwise the new line is appended. A position found by
`findIndex` is always a position of the array (`addToCart_of_exists`), so the
read `updated[index]` never yields `undefined` there and the `none` branch is
never taken. -/
def addToCart (product : Product) (selectedSize selectedColor : Option String)
    (prev : Cart) : Cart :=
  let index := findIndex (sameLine product selectedSize selectedColor) prev
  if index > -1 then
    match getAt prev index with
    | some item => prev.set index.toNat { item with quantity := item.quantity + 1 }
    | none => prev
  else
    prev ++ [newLine product selectedSize selectedColor]

/-- `Array.prototype.filter` with the two-argument callback `(element, i)`;
the first argument of this function is the position of the head. -/
def filterWithIndex {α : Type} (f : α → Nat → Bool) : Nat → List α → List α
  | _, [] => []
  | k, x :: xs =>
    if f x k then x :: filterWithIndex f (k + 1) xs else filterWithIndex f (k + 1) xs

/-- The updater of `removeItem(index)`: `prev.filter((_, i) => i !== index)`. -/
def removeItem (index : Int) (prev : Cart) : Cart :=
  filterWithIndex (fun _ i => decide ((i : Int) ≠ index)) 0 prev

/-- The updater of `updateQuantity(index, quantity)`: for `quantity <= 0` the call
is `removeItem(index)`; otherwise `updated[index].quantity = quantity`, which
throws a `TypeError` when `updated[index]` is `undefined`. -/
def updateQuantity (index : Int) (quantity : Int) (prev : Cart) : Except String Cart :=
  if quantity ≤ 0 then .ok (removeItem index prev)
  else
    match getAt prev index with
    | some item => .ok (prev.set index.toNat { item with quantity := quantity })
    | none => .error "TypeError: cannot set property quantity of undefined"

/-- The state written by `clearCart()`: `setCart([])`. -/
def clearCart (_prev : Cart) : Cart := []

/-- Rounding of a rational to an integer, ties to the even neighbour. -/
def roundTiesToEven (y : ℚ) : Int :=
  let f := ⌊y⌋
  let d := y - f
  if d < 1 / 2 then f
  else if 1 / 2 < d then f + 1
  else if f % 2 = 0 then f else f + 1

/-- The binary64 number nearest to a real result (IEEE 754 roundTiesToEven, the
rounding of every JavaScript arithmetic operation): the result is rounded to a
multiple of the spacing `2 ^ (e - 52)` of its binade `2 ^ e <= |x| < 2 ^ (e + 1)`,
with `e` no lower than `-1022` (subnormal numbers); a rounded magnitude of
`2 ^ 1024` or more is an infinity, returned as `none`. -/
def roundF64 (x : ℚ) : Option ℚ :=
  if x = 0 then some 0
  else
    let e := max (Int.log 2 |x|) (-1022)
    let q : ℚ := 2 ^ (e - 52)
    let r : ℚ := roundTiesToEven (x / q) * q
    if 2 ^ (1024 : Int) ≤ |r| then none else some r

/-- The product `a * b` of two numbers: the exact product, rounded; not finite
when an operand is not. -/
def mulF64 (a b : Option ℚ) : Option ℚ :=
  match a, b with
  | some x, some y => roundF64 (x * y)
  | _, _ => none

/-- The sum `a + b` of two numbers: the exact sum, rounded; not finite when an
operand is not. -/
def addF64 (a b : Option ℚ) : Option ℚ :=
  match a, b with
  | some x, some y => roundF64 (x + y)
  | _, _ => none

/-- The reduce of the `Cart` page on the `(price, quantity)` pairs of the lines:
`cart.reduce((acc, item) => acc + item.price * item.quantity, 0)`. -/
def totalOf (lines : List (ℚ × ℚ)) : Option ℚ :=
  lines.foldl (fun acc line => addF64 acc (mulF64 (some line.1) (some line.2))) (some 0)

/-- The cart total of the `Cart` page, for a cart of integer prices and
quantities: the reduce above on the numbers the lines hold. In a running
program these are binary64 numbers; an integer of magnitude at most `2 ^ 53` is
one (`roundF64_intCast`). -/
def total (cart : Cart) : Option ℚ :=
  totalOf (cart.map (fun item => ((item.price : ℚ), (item.quantity : ℚ))))

/-- JavaScript truthiness of a value that is `null` or a string: only a
non-empty string is truthy. -/
def truthyStr : Option String → Bool
  | none => false
  | some s => decide (s ≠ "")

/-- The test `filterPrice > 0 && p.price > filterPrice`. An absent `filterPrice`
is `none`, and `undefined > 0` is false. -/
def overCeiling (filterPrice : Option Int) (price : Int) : Bool :=
  match filterPrice with
  | some m => decide (m > 0) && decide (price > m)
  | none => false

/-- The callback of `products.filter` in `ProductListing`:
`if (filterCategory && p.category !== filterCategory) return false;
 if (filterPrice > 0 && p.price > filterPrice) return false; return true;`. -/
def keepProduct (filterCategory : Option String) (filterPrice : Option Int)
    (p : Product) : Bool :=
  if truthyStr filterCategory && decide (some p.category ≠ filterCategory) then false
  else if overCeiling filterPrice p.price then false
  else true

/-- The catalog filter: `products.filter(...)` with the callback above. -/
def filterCatalog (products : List Product) (filterCategory : Option String)
    (filterPrice : Option Int) : List Product :=
  products.filter (keepProduct filterCategory filterPrice)

/-- A parsed JSON value, the result of `JSON.parse`. -/
inductive JsonValue where
  | null : JsonValue
  | bool (b : Bool) : JsonValue
  | num (n : Int) : JsonValue
  | str (s : String) : JsonValue
  | arr (items : List JsonValue) : JsonValue
  | obj (fields : List (String × JsonValue)) : JsonValue

/-- JavaScript truthiness of a parsed JSON value: `null`, `false`, `0` and `""`
are falsy, everything else (every array and object included) is truthy. -/
def JsonValue.truthy : JsonValue → Bool
  | .null => false
  | .bool b => b
  | .num n => decide (n ≠ 0)
  | .str s => decide (s ≠ "")
  | .arr _ => true
  | .obj _ => true

/-- What evaluating `JSON.parse(localStorage.getItem("cart"))` does: it throws
(a `SyntaxError` from the parser, or an exception of the storage read), or it
yields a value. A missing key makes `getItem` return `null`, which `JSON.parse`
reads as the text `null`, so a missing key yields the value `null`. -/
inductive StorageRead where
  | threw : StorageRead
  | value (v : JsonValue) : StorageRead

/-- The lazy initial state of `CartProvider`:
`try { return JSON.parse(localStorage.getItem("cart")) || []; } catch { return []; }`. -/
def initialCart : StorageRead → JsonValue
  | .threw => .arr []
  | .value v => if v.truthy then v else .arr []

/-- The filter condition in the words of the specification: the category filter
is absent or equals the product's category, and the price filter is absent or
zero or at least the product's price. -/
def keepProductAsStated (c : Option String) (m : Option Int) (p : Product) : Bool :=
  (match c with
    | none => true
    | some s => decide (p.category = s))
  && (match m with
    | none => true
    | some v => decide (v = 0) || decide (p.price ≤ v))

/-- The first record of the `products` array. -/
def pegasus : Product :=
  { id := "1", name := "Nike Air Zoom Pegasus", category := "Shoes", price := 120,
    sizes := ["7", "8", "9", "10", "11"], colors := ["Black", "White", "Red"],
    images := [
      "https://static.nike.com/a/images/t_PDP_1280_v1/f_auto,q_auto:eco/4f34de6b-4c62-4d79-b639-0f1db48c81b3/air-zoom-pegasus-39-mens-running-shoe-qNJQJ1.png",
      "https://static.nike.com/a/images/t_PDP_1280_v1/f_auto,q_auto:eco/04e5c8e6-9b94-40ab-b2fa-cd1c84b8a72a/air-zoom-pegasus-39-mens-running-shoe-qNJQJ1.png"] }

/-- The second record of the `products` array. -/
def hoodie : Product :=
  { id := "2", name := "Nike Sportswear Hoodie", category := "Clothing", price := 65,
    sizes := ["S", "M", "L", "XL"], colors := ["Black", "Grey"],
    images := [
      "https://static.nike.com/a/images/c_limit,w_592,f_auto/t_product_v1/fdb05ef7-5297-4f08-8edb-6bf6d6d8e319/sportswear-hoodie-J1pJW7.png"] }

/-- The third record of the `products` array. -/
def backpack : Product :=
  { id := "3", name := "Nike Heritage Backpack", category := "Accessories", price := 45,
    sizes := [], colors := ["Black", "Blue"],
    images := [
      "https://static.nike.com/a/images/c_limit,w_592,f_auto/t_product_v1/d46ff253-1106-40e3-b1ad-9b53e34869ec/heritage-backpack-8g02M6.png"] }

/-- The catalog: the `products` array of the source. -/
def products : List Product := [pegasus, hoodie, backpack]

/-- A cart of three lines, built with `addToCart` from the empty cart: two
pairs of the running shoe in size 9 black, one hoodie, one backpack without a
size. -/
def sampleCart : Cart :=
  addToCart backpack none (some "Blue")
    (addToCart pegasus (some "9") (some "Black")
      (addToCart hoodie (some "M") (some "Grey")
        (addToCart pegasus (some "9") (some "Black") [])))

/-- A cart of two lines with the prices `2 ^ 53` and `1`, each in quantity 1. -/
def largeCart : Cart :=
  [{ newLine pegasus (some "9") (some "Black") with price := 9007199254740992 },
   { newLine backpack none (some "Blue") with price := 1 }]

/-- The identity of a line as `addToCart` compares it: the triple
`(id, selectedSize, selectedColor)`. -/
def lineKey (item : CartLine) : String × Option String × Option String :=
  (item.id, item.selectedSize, item.selectedColor)

/-- No two lines of the cart have the same identity triple. -/
def DistinctKeys (cart : Cart) : Prop := (cart.map lineKey).Nodup

/-- Every line of the cart has quantity at least 1. -/
def PositiveQuantities (cart : Cart) : Prop := ∀ item ∈ cart, 1 ≤ item.quantity

/-- One cart operation that produces a cart: an `addToCart`, an `updateQuantity`
that does not throw, a `removeItem`, or a `clearCart`. -/
inductive Step : Cart → Cart → Prop where
  | add (product : Product) (selectedSize selectedColor : Option String) (prev : Cart) :
      Step prev (addToCart product selectedSize selectedColor prev)
  | update (index quantity : Int) (prev next : Cart) :
      updateQuantity index quantity prev = .ok next → Step prev next
  | remove (index : Int) (prev : Cart) : Step prev (removeItem index prev)
  | clear (prev : Cart) : Step prev (clearCart prev)

/-- The carts reachable from the empty cart through cart operations. -/
inductive Reachable : Cart → Prop where
  | empty : Reachable []
  | step (prev next : Cart) : Reachable prev → Step prev next → Reachable next

/-! ## Auxiliary facts about the array primitives -/

/-- The embedding of `findIndex` agrees with the library search `List.findIdx`. -/
theorem findIndex_eq_findIdx {α : Type} (p : α → Bool) (xs : List α) :
    findIndex p xs = if xs.findIdx p < xs.length then (xs.findIdx p : Int) else -1 := by
  induction xs with
  | nil => simp [findIndex]
  | cons x xs ih =>
    by_cases hx : p x = true
    · simp [findIndex, List.findIdx_cons, hx]
    · simp only [Bool.not_eq_true] at hx
      simp only [findIndex, List.findIdx_cons, hx, ih, List.length_cons]
      by_cases hlt : xs.findIdx p < xs.length
      · have : (-1 : Int) < (xs.findIdx p : Int) := by omega
        simp [hlt, this]
      · simp [hlt]

/-- When some element satisfies the predicate, `findIndex` is the position of
the first one. -/
theorem findIndex_of_exists {α : Type} (p : α → Bool) (xs : List α)
    (h : ∃ x ∈ xs, p x = true) :
    findIndex p xs = (xs.findIdx p : Int) ∧ xs.findIdx p < xs.length := by
  have hlt : xs.findIdx p < xs.length := List.findIdx_lt_length_of_exists h
  exact ⟨by simp [findIndex_eq_findIdx, hlt], hlt⟩

/-- When no element satisfies the predicate, `findIndex` is `-1`. -/
theorem findIndex_of_forall_false {α : Type} (p : α → Bool) (xs : List α)
    (h : ∀ x ∈ xs, p x = false) : findIndex p xs = -1 := by
  have : xs.findIdx p = xs.length := List.findIdx_eq_length_of_false h
  simp [findIndex_eq_findIdx, this]

/-- Reading at a natural position is the usual optional lookup. -/
theorem getAt_natCast {α : Type} (xs : List α) (i : Nat) : getAt xs (i : Int) = xs[i]? := by
  simp [getAt]

/-- Reading at a negative position yields `undefined`. -/
theorem getAt_neg {α : Type} (xs : List α) (i : Int) (h : i < 0) : getAt xs i = none := by
  simp [getAt, Int.not_le.mpr h]

/-- A read yields an element exactly at the positions of the array. -/
theorem getAt_isSome_iff {α : Type} (xs : List α) (i : Int) :
    (getAt xs i).isSome = true ↔ 0 ≤ i ∧ i < xs.length := by
  by_cases h : 0 ≤ i
  · obtain ⟨n, rfl⟩ := Int.eq_ofNat_of_zero_le h
    rw [getAt_natCast]
    constructor
    · intro hs
      obtain ⟨a, ha⟩ := Option.isSome_iff_exists.mp hs
      obtain ⟨hlt, _⟩ := List.getElem?_eq_some_iff.mp ha
      exact ⟨h, by exact_mod_cast hlt⟩
    · rintro ⟨_, hlt⟩
      have hlt' : n < xs.length := by exact_mod_cast hlt
      simp [List.getElem?_eq_getElem hlt']
  · simp [getAt, h]

/-- Filtering out the position `k + i`, counting from `k`, erases the `i`-th element. -/
theorem filterWithIndex_ne {α : Type} (xs : List α) (k i : Nat) :
    filterWithIndex (fun _ j => decide ((j : Int) ≠ ((k + i : Nat) : Int))) k xs
      = xs.eraseIdx i := by
  induction xs generalizing k i with
  | nil => simp [filterWithIndex]
  | cons x xs ih =>
    cases i with
    | zero =>
      have hall : ∀ (ys : List α) (m : Nat), k < m →
          filterWithIndex (fun _ j => decide ((j : Int) ≠ ((k + 0 : Nat) : Int))) m ys = ys := by
        intro ys
        induction ys with
        | nil => intro m _; simp [filterWithIndex]
        | cons y ys ihy =>
          intro m hm
          have hne : m ≠ k := by omega
          rw [filterWithIndex, ihy (m + 1) (by omega)]
          simp [hne]
      rw [filterWithIndex, hall xs (k + 1) (by omega)]
      simp
    | succ i =>
      have hne : (k : Int) ≠ ((k + (i + 1) : Nat) : Int) := by
        push_cast; omega
      have hk : k + (i + 1) = (k + 1) + i := by omega
      simp only [filterWithIndex, hne, decide_True, if_true, List.eraseIdx_cons_succ, ne_eq,
        not_false_eq_true]
      rw [hk, ih (k + 1) i]

/-- A filter whose callback accepts every position met keeps the whole array. -/
theorem filterWithIndex_all {α : Type} (f : α → Nat → Bool) (xs : List α) (k : Nat)
    (h : ∀ x j, k ≤ j → j < k + xs.length → f x j = true) :
    filterWithIndex f k xs = xs := by
  induction xs generalizing k with
  | nil => simp [filterWithIndex]
  | cons x xs ih =>
    have hx : f x k = true := h x k (Nat.le_refl k) (by simp)
    have ht : filterWithIndex f (k + 1) xs = xs :=
      ih (k + 1) (fun y j hj hlt => h y j (by omega) (by simp only [List.length_cons]; omega))
    simp [filterWithIndex, hx, ht]

/-- At a natural index `removeItem` is `List.eraseIdx`. -/
theorem removeItem_natCast (i : Nat) (prev : Cart) :
    removeItem (i : Int) prev = prev.eraseIdx i := by
  have h := filterWithIndex_ne prev 0 i
  simpa [removeItem] using h

/-- At an index that is no position of the cart `removeItem` keeps every line. -/
theorem removeItem_out_of_range (index : Int) (prev : Cart)
    (h : index < 0 ∨ (prev.length : Int) ≤ index) : removeItem index prev = prev := by
  apply filterWithIndex_all
  intro _ j _ hj
  simp only [decide_eq_true_eq]
  omega

/-! ## Auxiliary facts about the cart updaters -/

/-- The search predicate of `addToCart` holds exactly for the lines whose
identity triple is the one looked for. -/
theorem sameLine_iff (product : Product) (s c : Option String) (item : CartLine) :
    sameLine product s c item = true ↔ lineKey item = (product.id, s, c) := by
  simp [sameLine, lineKey, and_assoc]

/-- Overwriting the quantity of a line does not change its identity. -/
theorem lineKey_with_quantity (item : CartLine) (q : Int) :
    lineKey { item with quantity := q } = lineKey item := rfl

/-- When a line matches, `addToCart` rewrites the first matching line with its
quantity increased by one. -/
theorem addToCart_of_exists (product : Product) (s c : Option String) (prev : Cart)
    (h : ∃ item ∈ prev, sameLine product s c item = true) :
    ∃ hi : prev.findIdx (sameLine product s c) < prev.length,
      addToCart product s c prev
        = prev.set (prev.findIdx (sameLine product s c))
            { prev[prev.findIdx (sameLine product s c)] with
              quantity := prev[prev.findIdx (sameLine product s c)].quantity + 1 } := by
  obtain ⟨hidx, hlt⟩ := findIndex_of_exists _ prev h
  refine ⟨hlt, ?_⟩
  have hpos : (-1 : Int) < (prev.findIdx (sameLine product s c) : Int) := by omega
  simp [addToCart, hidx, hpos, getAt_natCast, List.getElem?_eq_getElem hlt]

/-- When no line matches, `addToCart` appends the new line. -/
theorem addToCart_of_forall_false (product : Product) (s c : Option String) (prev : Cart)
    (h : ∀ item ∈ prev, sameLine product s c item = false) :
    addToCart product s c prev = prev ++ [newLine product s c] := by
  simp [addToCart, findIndex_of_forall_false _ prev h]

/-- Overwriting one line by a line of the same identity keeps the list of identities. -/
theorem map_lineKey_set (cart : Cart) (i : Nat) (item : CartLine) (hi : i < cart.length)
    (h : lineKey item = lineKey cart[i]) :
    (cart.set i item).map lineKey = cart.map lineKey := by
  rw [List.map_set, h]
  apply List.ext_getElem?
  intro j
  by_cases hj : i = j
  · subst hj
    simp [List.getElem?_set, hi]
  · simp [List.getElem?_set, hj]

/-- The identities held after `addToCart`: unchanged when a line matched, one
more at the end otherwise. -/
theorem map_lineKey_addToCart (product : Product) (s c : Option String) (prev : Cart) :
    (addToCart product s c prev).map lineKey
      = if (product.id, s, c) ∈ prev.map lineKey then prev.map lineKey
        else prev.map lineKey ++ [(product.id, s, c)] := by
  by_cases h : ∃ item ∈ prev, sameLine product s c item = true
  · obtain ⟨hi, heq⟩ := addToCart_of_exists product s c prev h
    have hmem : (product.id, s, c) ∈ prev.map lineKey := by
      obtain ⟨item, hin, hs⟩ := h
      exact List.mem_map.mpr ⟨item, hin, (sameLine_iff _ _ _ _).mp hs⟩
    rw [heq, if_pos hmem]
    exact map_lineKey_set prev _ _ hi rfl
  · have hall : ∀ item ∈ prev, sameLine product s c item = false := by
      intro item hin
      by_contra hne
      exact h ⟨item, hin, by simpa using hne⟩
    have hmem : (product.id, s, c) ∉ prev.map lineKey := by
      intro hm
      obtain ⟨item, hin, hk⟩ := List.mem_map.mp hm
      exact h ⟨item, hin, (sameLine_iff _ _ _ _).mpr hk⟩
    rw [addToCart_of_forall_false product s c prev hall, if_neg hmem]
    simp [lineKey, newLine]

/-- Whatever the index, `removeItem` yields a sublist of the cart. -/
theorem removeItem_sublist (index : Int) (prev : Cart) :
    (removeItem index prev).Sublist prev := by
  by_cases h : 0 ≤ index
  · obtain ⟨n, rfl⟩ := Int.eq_ofNat_of_zero_le h
    rw [removeItem_natCast]
    exact List.eraseIdx_sublist prev n
  · rw [removeItem_out_of_range index prev (Or.inl (by omega))]

/-- With a positive quantity and an index that is a position of the cart,
`updateQuantity` overwrites the quantity of that line. -/
theorem updateQuantity_pos_natCast (n : Nat) (q : Int) (prev : Cart) (hq : 0 < q)
    (hn : n < prev.length) :
    updateQuantity (n : Int) q prev = .ok (prev.set n { prev[n] with quantity := q }) := by
  simp [updateQuantity, Int.not_le.mpr hq, getAt_natCast, List.getElem?_eq_getElem hn]

/-- With a positive quantity and an index that is no position of the cart,
`updateQuantity` throws. -/
theorem updateQuantity_pos_out_of_range (index q : Int) (prev : Cart) (hq : 0 < q)
    (h : index < 0 ∨ (prev.length : Int) ≤ index) :
    ∃ e, updateQuantity index q prev = .error e := by
  have hnone : getAt prev index = none := by
    rcases h with h | h
    · exact getAt_neg prev index h
    · have h0 : 0 ≤ index := by omega
      obtain ⟨n, rfl⟩ := Int.eq_ofNat_of_zero_le h0
      rw [getAt_natCast]
      exact List.getElem?_eq_none (by exact_mod_cast h)
  refine ⟨"TypeError: cannot set property quantity of undefined", ?_⟩
  simp [updateQuantity, Int.not_le.mpr hq, hnone]

/-- Every cart `updateQuantity` produces is either what `removeItem` produces or
the cart with the quantity of one line overwritten by a positive number. -/
theorem updateQuantity_ok_cases (index q : Int) (prev next : Cart)
    (h : updateQuantity index q prev = .ok next) :
    next = removeItem index prev
      ∨ ∃ (n : Nat) (hn : n < prev.length), 0 < q ∧
          next = prev.set n { prev[n] with quantity := q } := by
  by_cases hq : q ≤ 0
  · left
    simp only [updateQuantity, hq, if_true] at h
    exact (Except.ok.inj h).symm
  · right
    have hq' : 0 < q := by omega
    by_cases hr : 0 ≤ index ∧ index < prev.length
    · obtain ⟨n, rfl⟩ := Int.eq_ofNat_of_zero_le hr.1
      have hn : n < prev.length := by exact_mod_cast hr.2
      rw [updateQuantity_pos_natCast n q prev hq' hn] at h
      exact ⟨n, hn, hq', (Except.ok.inj h).symm⟩
    · obtain ⟨e, he⟩ := updateQuantity_pos_out_of_range index q prev hq' (by omega)
      rw [he] at h
      cases h

/-- The identity invariant survives `addToCart`. -/
theorem distinctKeys_addToCart (product : Product) (s c : Option String) (prev : Cart)
    (h : DistinctKeys prev) : DistinctKeys (addToCart product s c prev) := by
  unfold DistinctKeys at *
  rw [map_lineKey_addToCart]
  split
  · exact h
  · rename_i hmem
    exact List.Nodup.append h (List.nodup_singleton _)
      (by simpa [List.Disjoint] using hmem)

/-- The identity invariant survives `removeItem`. -/
theorem distinctKeys_removeItem (index : Int) (prev : Cart) (h : DistinctKeys prev) :
    DistinctKeys (removeItem index prev) :=
  List.Nodup.sublist ((removeItem_sublist index prev).map lineKey) h

/-- The identity invariant survives every `updateQuantity` that produces a cart. -/
theorem distinctKeys_updateQuantity (index q : Int) (prev next : Cart)
    (hu : updateQuantity index q prev = .ok next) (h : DistinctKeys prev) :
    DistinctKeys next := by
  rcases updateQuantity_ok_cases index q prev next hu with rfl | ⟨n, hn, _, rfl⟩
  · exact distinctKeys_removeItem index prev h
  · unfold DistinctKeys
    have hset := map_lineKey_set prev n { prev[n] with quantity := q } hn rfl
    exact hset ▸ h

/-- The quantity invariant survives `addToCart`. -/
theorem positiveQuantities_addToCart (product : Product) (s c : Option String) (prev : Cart)
    (h : PositiveQuantities prev) : PositiveQuantities (addToCart product s c prev) := by
  by_cases hex : ∃ item ∈ prev, sameLine product s c item = true
  · obtain ⟨hi, heq⟩ := addToCart_of_exists product s c prev hex
    rw [heq]
    intro item hin
    rcases List.mem_or_eq_of_mem_set hin with hm | rfl
    · exact h item hm
    · have := h _ (List.getElem_mem hi)
      show 1 ≤ _ + 1
      omega
  · have hall : ∀ item ∈ prev, sameLine product s c item = false := by
      intro item hin
      by_contra hne
      exact hex ⟨item, hin, by simpa using hne⟩
    rw [addToCart_of_forall_false product s c prev hall]
    intro item hin
    rcases List.mem_append.mp hin with hm | hm
    · exact h item hm
    · have hitem : item = newLine product s c := by simpa using hm
      subst hitem
      simp [newLine]

/-- The quantity invariant survives `removeItem`. -/
theorem positiveQuantities_removeItem (index : Int) (prev : Cart)
    (h : PositiveQuantities prev) : PositiveQuantities (removeItem index prev) :=
  fun item hin => h item ((removeItem_sublist index prev).subset hin)

/-- The quantity invariant survives every `updateQuantity` that produces a cart. -/
theorem positiveQuantities_updateQuantity (index q : Int) (prev next : Cart)
    (hu : updateQuantity index q prev = .ok next) (h : PositiveQuantities prev) :
    PositiveQuantities next := by
  rcases updateQuantity_ok_cases index q prev next hu with rfl | ⟨n, hn, hq, rfl⟩
  · exact positiveQuantities_removeItem index prev h
  · intro item hin
    rcases List.mem_or_eq_of_mem_set hin with hm | rfl
    · exact h item hm
    · show 1 ≤ q
      omega

/-- At an index that is a position of the cart `updateQuantity` never throws. -/
theorem updateQuantity_in_range_ok (index q : Int) (prev : Cart) (h0 : 0 ≤ index)
    (hlt : index < prev.length) : ∃ next, updateQuantity index q prev = .ok next := by
  by_cases hq : q ≤ 0
  · exact ⟨removeItem index prev, by simp [updateQuantity, hq]⟩
  · obtain ⟨n, rfl⟩ := Int.eq_ofNat_of_zero_le h0
    exact ⟨_, updateQuantity_pos_natCast n q prev (by omega) (by exact_mod_cast hlt)⟩

/-- The filter callback keeps a product exactly when the category filter is
`null`, the empty string or the product's category, and the price filter is
absent, not positive, or at least the product's price. -/
theorem keepProduct_iff (c : Option String) (m : Option Int) (p : Product) :
    keepProduct c m p = true ↔
      (c = none ∨ c = some "" ∨ c = some p.category)
        ∧ (m = none ∨ ∃ v, m = some v ∧ (v ≤ 0 ∨ p.price ≤ v)) := by
  have hcat : (truthyStr c && decide (some p.category ≠ c)) = true ↔
      ¬ (c = none ∨ c = some "" ∨ c = some p.category) := by
    cases c with
    | none => simp [truthyStr]
    | some s =>
      by_cases hs : s = ""
      · simp [truthyStr, hs]
      · by_cases hp : p.category = s
        · simp [truthyStr, hs, hp]
        · have hp2 : ¬ s = p.category := fun h => hp h.symm
          simp [truthyStr, hs, hp, hp2]
  have hprice : overCeiling m p.price = true ↔
      ¬ (m = none ∨ ∃ v, m = some v ∧ (v ≤ 0 ∨ p.price ≤ v)) := by
    cases m with
    | none => simp [overCeiling]
    | some v =>
      simp only [overCeiling, Bool.and_eq_true, decide_eq_true_eq, Option.some.injEq,
        exists_eq_left', false_or, reduceCtorEq]
      omega
  unfold keepProduct
  by_cases h1 : (truthyStr c && decide (some p.category ≠ c)) = true
  · have hn := hcat.mp h1
    simp only [h1, if_true]
    constructor
    · intro h; cases h
    · intro h; exact absurd h.1 hn
  · have hy : c = none ∨ c = some "" ∨ c = some p.category := by
      by_contra hc
      exact h1 (hcat.mpr hc)
    rw [if_neg h1]
    by_cases h2 : overCeiling m p.price = true
    · have hn := hprice.mp h2
      rw [if_pos h2]
      constructor
      · intro h; cases h
      · intro h; exact absurd h.2 hn
    · have hy2 : m = none ∨ ∃ v, m = some v ∧ (v ≤ 0 ∨ p.price ≤ v) := by
        by_contra hc
        exact h2 (hprice.mpr hc)
      rw [if_neg h2]
      exact ⟨fun _ => ⟨hy, hy2⟩, fun _ => rfl⟩

/-- The filter condition in the words of the specification, as a proposition. -/
theorem keepProductAsStated_iff (c : Option String) (m : Option Int) (p : Product) :
    keepProductAsStated c m p = true ↔
      (c = none ∨ c = some p.category)
        ∧ (m = none ∨ m = some 0 ∨ ∃ v, m = some v ∧ p.price ≤ v) := by
  cases c with
  | none =>
    cases m with
    | none => simp [keepProductAsStated]
    | some v => simp [keepProductAsStated]
  | some s =>
    have hs : (some s = some p.category) ↔ p.category = s :=
      ⟨fun h => (Option.some.inj h).symm, fun h => by rw [h]⟩
    cases m with
    | none => simp [keepProductAsStated, hs]
    | some v => simp [keepProductAsStated, hs]

/-- On the values the filter state takes (a category that is `null` or a
non-empty string, a maximum price that is absent or not negative) the callback
of the code and the condition of the specification agree. -/
theorem keepProduct_eq_asStated (c : Option String) (m : Option Int) (p : Product)
    (hc : c ≠ some "") (hm : ∀ v, m = some v → 0 ≤ v) :
    keepProduct c m p = keepProductAsStated c m p := by
  have h1 := keepProduct_iff c m p
  have h2 := keepProductAsStated_iff c m p
  have hiff : keepProduct c m p = true ↔ keepProductAsStated c m p = true := by
    rw [h1, h2]
    constructor
    · rintro ⟨hcat, hprice⟩
      refine ⟨?_, ?_⟩
      · rcases hcat with h | h | h
        · exact Or.inl h
        · exact absurd h hc
        · exact Or.inr h
      · rcases hprice with h | ⟨v, hv, hle⟩
        · exact Or.inl h
        · rcases hle with hle | hle
          · have h0 : v = 0 := le_antisymm hle (hm v hv)
            exact Or.inr (Or.inl (by rw [hv, h0]))
          · exact Or.inr (Or.inr ⟨v, hv, hle⟩)
    · rintro ⟨hcat, hprice⟩
      refine ⟨?_, ?_⟩
      · rcases hcat with h | h
        · exact Or.inl h
        · exact Or.inr (Or.inr h)
      · rcases hprice with h | h | ⟨v, hv, hle⟩
        · exact Or.inl h
        · exact Or.inr ⟨0, h, Or.inl (le_refl 0)⟩
        · exact Or.inr ⟨v, hv, Or.inr hle⟩
  cases hk : keepProduct c m p with
  | true => exact (hiff.mp hk).symm
  | false =>
    cases ha : keepProductAsStated c m p with
    | false => rfl
    | true => rw [hiff.mpr ha] at hk; cases hk

/-- The product of two finite numbers is the rounded exact product. -/
theorem mulF64_some (x y : ℚ) : mulF64 (some x) (some y) = roundF64 (x * y) := rfl

/-- The sum of two finite numbers is the rounded exact sum. -/
theorem addF64_some (x y : ℚ) : addF64 (some x) (some y) = roundF64 (x + y) := rfl

/-- An integer is its own rounding. -/
theorem roundTiesToEven_intCast (k : Int) : roundTiesToEven (k : ℚ) = k := by
  simp [roundTiesToEven]

/-- A number half-way between two integers rounds to the even one. -/
theorem roundTiesToEven_add_half (f : Int) :
    roundTiesToEven ((f : ℚ) + 1 / 2) = if f % 2 = 0 then f else f + 1 := by
  have hfloor : ⌊(f : ℚ) + 1 / 2⌋ = f := by
    rw [Int.floor_eq_iff]
    constructor <;> linarith
  simp only [roundTiesToEven, hfloor]
  norm_num

/-- A number above the half-way point rounds up. -/
theorem roundTiesToEven_above_half (f : Int) (d : ℚ) (h1 : 1 / 2 < d) (h2 : d < 1) :
    roundTiesToEven ((f : ℚ) + d) = f + 1 := by
  have hfloor : ⌊(f : ℚ) + d⌋ = f := by
    rw [Int.floor_eq_iff]
    constructor <;> linarith
  have hd : ¬ (d < 1 / 2) := not_lt.mpr (le_of_lt h1)
  simp only [roundTiesToEven, hfloor, add_sub_cancel_left, hd, h1, if_true, if_false]

/-- A finite number that is a multiple of the spacing of its binade is a
binary64 number: rounding leaves it as it is. -/
theorem roundF64_of_multiple (x : ℚ) (k : Int)
    (hk : x / 2 ^ (max (Int.log 2 |x|) (-1022) - 52) = (k : ℚ))
    (hfin : |x| < 2 ^ (1024 : Int)) : roundF64 x = some x := by
  by_cases hx : x = 0
  · simp [roundF64, hx]
  · have hq : (2 : ℚ) ^ (max (Int.log 2 |x|) (-1022) - 52) ≠ 0 :=
      zpow_ne_zero _ (by norm_num)
    have hr : ((roundTiesToEven (x / 2 ^ (max (Int.log 2 |x|) (-1022) - 52)) : Int) : ℚ)
        * 2 ^ (max (Int.log 2 |x|) (-1022) - 52) = x := by
      rw [hk, roundTiesToEven_intCast, ← hk]
      exact div_mul_cancel₀ x hq
    simp only [roundF64, hx, if_false, hr]
    rw [if_neg (not_le.mpr hfin)]

/-- Every integer of magnitude at most `2 ^ 53` is a binary64 number. -/
theorem roundF64_intCast (n : Int) (h : |n| ≤ 2 ^ 53) : roundF64 (n : ℚ) = some (n : ℚ) := by
  by_cases hn : n = 0
  · simp [roundF64, hn]
  · have habs : (1 : ℚ) ≤ |(n : ℚ)| := by
      have : (1 : Int) ≤ |n| := Int.one_le_abs hn
      exact_mod_cast this
    have hpos : (0 : ℚ) < |(n : ℚ)| := lt_of_lt_of_le one_pos habs
    have hle : |(n : ℚ)| ≤ 2 ^ (53 : Int) := by
      have h2 : ((|n| : Int) : ℚ) ≤ ((2 ^ 53 : Int) : ℚ) := by exact_mod_cast h
      have h3 : ((|n| : Int) : ℚ) = |(n : ℚ)| := by push_cast; rfl
      rw [h3] at h2
      refine le_trans h2 ?_
      norm_num
    have hL0 : 0 ≤ Int.log 2 |(n : ℚ)| := by
      rw [← Int.zpow_le_iff_le_log (by norm_num) hpos]
      simpa using habs
    have hL53 : Int.log 2 |(n : ℚ)| ≤ 53 := by
      have : Int.log 2 |(n : ℚ)| < 54 := by
        rw [← Int.lt_zpow_iff_log_lt (by norm_num) hpos]
        refine lt_of_le_of_lt hle ?_
        norm_num
      omega
    have hmax : max (Int.log 2 |(n : ℚ)|) (-1022) = Int.log 2 |(n : ℚ)| :=
      max_eq_left (by omega)
    have hfin : |(n : ℚ)| < 2 ^ (1024 : Int) := lt_of_le_of_lt hle (by norm_num)
    by_cases hL : Int.log 2 |(n : ℚ)| ≤ 52
    · obtain ⟨t, ht⟩ := Int.eq_ofNat_of_zero_le (show 0 ≤ 52 - Int.log 2 |(n : ℚ)| by omega)
      refine roundF64_of_multiple (n : ℚ) (n * 2 ^ t) ?_ hfin
      rw [hmax]
      have he : Int.log 2 |(n : ℚ)| - 52 = -(t : Int) := by omega
      rw [he, zpow_neg, zpow_natCast, div_inv_eq_mul]
      push_cast
      rfl
    · have hLeq : Int.log 2 |(n : ℚ)| = 53 := by omega
      have hge : (2 : ℚ) ^ (53 : Int) ≤ |(n : ℚ)| := by
        have := Int.zpow_log_le_self (b := 2) (by norm_num) hpos
        rw [hLeq] at this
        simpa using this
      have heq : |(n : ℚ)| = 2 ^ (53 : Int) := le_antisymm hle hge
      have hcase : (n : ℚ) = 2 ^ (53 : Int) ∨ (n : ℚ) = -(2 ^ (53 : Int)) := by
        rcases abs_choice (n : ℚ) with h1 | h1
        · left; rw [← h1]; exact heq
        · right; rw [← heq, h1, neg_neg]
      rcases hcase with h1 | h1
      · refine roundF64_of_multiple (n : ℚ) (2 ^ 52) ?_ hfin
        rw [hmax, hLeq, h1]
        norm_num
      · refine roundF64_of_multiple (n : ℚ) (-(2 ^ 52)) ?_ hfin
        rw [hmax, hLeq, h1]
        norm_num

/-- The rounding of a number whose binade is known. -/
theorem roundF64_of_binade (x : ℚ) (e n : Int) (hx : x ≠ 0)
    (h1 : (2 : ℚ) ^ e ≤ |x|) (h2 : |x| < (2 : ℚ) ^ (e + 1)) (he : -1022 ≤ e)
    (hn : roundTiesToEven (x / 2 ^ (e - 52)) = n)
    (hfin : |(n : ℚ) * 2 ^ (e - 52)| < 2 ^ (1024 : Int)) :
    roundF64 x = some ((n : ℚ) * 2 ^ (e - 52)) := by
  have hpos : (0 : ℚ) < |x| := abs_pos.mpr hx
  have hlog : Int.log 2 |x| = e := by
    have ha : e ≤ Int.log 2 |x| := by
      rw [← Int.zpow_le_iff_le_log (by norm_num) hpos]
      exact_mod_cast h1
    have hb : Int.log 2 |x| < e + 1 := by
      rw [← Int.lt_zpow_iff_log_lt (by norm_num) hpos]
      exact_mod_cast h2
    omega
  have hmax : max (Int.log 2 |x|) (-1022) = e := by rw [hlog]; exact max_eq_left he
  simp only [roundF64, hx, if_false, hmax, hn]
  rw [if_neg (not_le.mpr hfin)]

/-- The reduce of the cart total, started from an integer accumulator, is exact
as long as every product and every partial sum stays within `2 ^ 53`. -/
theorem foldl_total_exact (cart : Cart) (acc : Int)
    (hprod : ∀ item ∈ cart, |item.price * item.quantity| ≤ 2 ^ 53)
    (hsum : ∀ k : Nat, k ≤ cart.length →
      |acc + ((cart.take k).map (fun item => item.price * item.quantity)).sum| ≤ 2 ^ 53) :
    (cart.map (fun item => ((item.price : ℚ), (item.quantity : ℚ)))).foldl
        (fun a line => addF64 a (mulF64 (some line.1) (some line.2))) (some (acc : ℚ))
      = some (((acc + (cart.map (fun item => item.price * item.quantity)).sum : Int)) : ℚ) := by
  induction cart generalizing acc with
  | nil => simp
  | cons x xs ih =>
    have hx : roundF64 ((x.price : ℚ) * (x.quantity : ℚ))
        = some (((x.price * x.quantity : Int)) : ℚ) := by
      have h := roundF64_intCast (x.price * x.quantity) (hprod x (List.mem_cons_self x xs))
      rw [← h]
      push_cast
      rfl
    have h1 : |acc + x.price * x.quantity| ≤ 2 ^ 53 := by
      have h := hsum 1 (by simp)
      simpa using h
    have hstep : addF64 (some (acc : ℚ)) (mulF64 (some (x.price : ℚ)) (some (x.quantity : ℚ)))
        = some (((acc + x.price * x.quantity : Int)) : ℚ) := by
      simp only [mulF64, hx, addF64]
      have h := roundF64_intCast (acc + x.price * x.quantity) h1
      rw [← h]
      push_cast
      rfl
    simp only [List.map_cons, List.foldl_cons, hstep]
    rw [ih (acc + x.price * x.quantity) (fun item hin => hprod item (List.mem_cons_of_mem x hin))
      (fun k hk => by
        have h := hsum (k + 1) (by simp only [List.length_cons]; omega)
        simpa [add_assoc] using h)]
    simp [add_assoc]

/-! ## The claims -/

/-- Claim C1. `addToCart`: when some line has the product's id and the given
selectedSize and selectedColor, the result has the same length, the first such
line has its quantity increased by exactly 1 and every other position is
unchanged; when no line matches, the result is the old list with one new line
appended that carries the product's fields, the given selection and quantity 1.
Adding the same product and selection twice to a cart without a matching line
leaves exactly one line of that identity, with quantity 2; adding one product
with two different sizes to such a cart appends two distinct lines, and on any
cart the two identities end up at two different positions. -/
theorem addToCart_increments_or_appends (product : Product) (s c : Option String)
    (prev : Cart) :
    ((∃ item ∈ prev, sameLine product s c item = true) →
      ∃ (i : Nat) (hi : i < prev.length),
        sameLine product s c prev[i] = true ∧
        (∀ (j : Nat) (hj : j < prev.length), j < i → sameLine product s c prev[j] = false) ∧
        (addToCart product s c prev).length = prev.length ∧
        (addToCart product s c prev)[i]?
          = some { prev[i] with quantity := prev[i].quantity + 1 } ∧
        ∀ j : Nat, j ≠ i → (addToCart product s c prev)[j]? = prev[j]?)
    ∧ ((∀ item ∈ prev, sameLine product s c item = false) →
        addToCart product s c prev
          = prev ++ [{ id := product.id, name := product.name, category := product.category,
                       price := product.price, sizes := product.sizes,
                       colors := product.colors, images := product.images,
                       selectedSize := s, selectedColor := c, quantity := 1 }])
    ∧ ((∀ item ∈ prev, sameLine product s c item = false) →
        addToCart product s c (addToCart product s c prev)
            = prev ++ [{ newLine product s c with quantity := 2 }]
          ∧ (addToCart product s c (addToCart product s c prev)).filter (sameLine product s c)
            = [{ newLine product s c with quantity := 2 }])
    ∧ (∀ s2 : Option String, s ≠ s2 →
        ((∀ item ∈ prev, sameLine product s c item = false) →
          (∀ item ∈ prev, sameLine product s2 c item = false) →
          addToCart product s2 c (addToCart product s c prev)
            = prev ++ [newLine product s c, newLine product s2 c])
        ∧ ∃ (i j : Nat) (a b : CartLine), i ≠ j ∧
            (addToCart product s2 c (addToCart product s c prev))[i]? = some a ∧
            (addToCart product s2 c (addToCart product s c prev))[j]? = some b ∧
            lineKey a = (product.id, s, c) ∧ lineKey b = (product.id, s2, c)) := by
  refine ⟨?_, ?_, ?_, ?_⟩
  · intro h
    obtain ⟨hi, heq⟩ := addToCart_of_exists product s c prev h
    refine ⟨prev.findIdx (sameLine product s c), hi, List.findIdx_getElem, ?_, ?_, ?_, ?_⟩
    · intro j _ hj
      simpa using List.not_of_lt_findIdx hj
    · rw [heq, List.length_set]
    · rw [heq]; simp [List.getElem?_set, hi]
    · intro j hj
      rw [heq]; simp [List.getElem?_set, Ne.symm hj]
  · intro h
    exact addToCart_of_forall_false product s c prev h
  · intro h
    have hfirst := addToCart_of_forall_false product s c prev h
    have hself : sameLine product s c (newLine product s c) = true := by
      simp [sameLine, newLine]
    have hidx : (prev ++ [newLine product s c]).findIdx (sameLine product s c) = prev.length := by
      rw [List.findIdx_append, List.findIdx_eq_length_of_false h]
      simp [List.findIdx_cons, hself]
    have hex : ∃ item ∈ prev ++ [newLine product s c], sameLine product s c item = true :=
      ⟨newLine product s c, by simp, hself⟩
    obtain ⟨_, heq⟩ := addToCart_of_exists product s c _ hex
    have hres : addToCart product s c (addToCart product s c prev)
        = prev ++ [{ newLine product s c with quantity := 2 }] := by
      rw [hfirst, heq]
      simp only [hidx]
      simp [newLine]
    refine ⟨hres, ?_⟩
    rw [hres, List.filter_append]
    have hnil : prev.filter (sameLine product s c) = [] := by
      rw [List.filter_eq_nil_iff]
      intro a ha
      simp [h a ha]
    have hself2 : sameLine product s c { newLine product s c with quantity := 2 } = true := by
      simp [sameLine, newLine]
    simp [hnil, List.filter_cons, hself2]
  · intro s2 hne
    refine ⟨?_, ?_⟩
    · intro h h2
      rw [addToCart_of_forall_false product s c prev h]
      have h2ext : ∀ item ∈ prev ++ [newLine product s c],
          sameLine product s2 c item = false := by
        intro item hin
        rcases List.mem_append.mp hin with hp | hn
        · exact h2 item hp
        · have hitem : item = newLine product s c := by simpa using hn
          subst hitem
          simp [sameLine, newLine, hne]
      rw [addToCart_of_forall_false product s2 c _ h2ext]
      simp
    · have hk1 : (product.id, s, c) ∈ (addToCart product s c prev).map lineKey := by
        rw [map_lineKey_addToCart]
        split
        · assumption
        · simp
      have hk1b : (product.id, s, c)
          ∈ (addToCart product s2 c (addToCart product s c prev)).map lineKey := by
        rw [map_lineKey_addToCart]
        split
        · exact hk1
        · exact List.mem_append_left _ hk1
      have hk2 : (product.id, s2, c)
          ∈ (addToCart product s2 c (addToCart product s c prev)).map lineKey := by
        rw [map_lineKey_addToCart]
        split
        · assumption
        · simp
      obtain ⟨a, ha, hka⟩ := List.mem_map.mp hk1b
      obtain ⟨b, hb, hkb⟩ := List.mem_map.mp hk2
      obtain ⟨i, hi⟩ := List.getElem?_of_mem ha
      obtain ⟨j, hj⟩ := List.getElem?_of_mem hb
      refine ⟨i, j, a, b, ?_, hi, hj, hka, hkb⟩
      intro hij
      subst hij
      rw [hi] at hj
      have hab : a = b := Option.some.inj hj
      subst hab
      rw [hka] at hkb
      exact hne (by simpa using hkb)

/-- Claim C2. Identity invariant: when no two lines of a cart share the triple
(id, selectedSize, selectedColor), the same holds after `addToCart` with any
product and selection, after `updateQuantity` and `removeItem` at every in-range
index with every integer quantity (both produce a cart there), and after
`clearCart`; hence no cart reachable from the empty cart through these
operations holds two lines of the same identity. -/
theorem distinctKeys_invariant :
    (∀ prev : Cart, DistinctKeys prev →
      (∀ (product : Product) (s c : Option String), DistinctKeys (addToCart product s c prev))
      ∧ (∀ i q : Int, 0 ≤ i → i < prev.length →
          ∃ next, updateQuantity i q prev = .ok next ∧ DistinctKeys next)
      ∧ (∀ i : Int, 0 ≤ i → i < prev.length → DistinctKeys (removeItem i prev))
      ∧ DistinctKeys (clearCart prev))
    ∧ (∀ cart : Cart, Reachable cart → DistinctKeys cart) := by
  refine ⟨fun prev h => ⟨fun product s c => distinctKeys_addToCart product s c prev h, ?_,
    fun i _ _ => distinctKeys_removeItem i prev h, List.nodup_nil⟩, ?_⟩
  · intro i q h0 hlt
    obtain ⟨next, hnext⟩ := updateQuantity_in_range_ok i q prev h0 hlt
    exact ⟨next, hnext, distinctKeys_updateQuantity i q prev next hnext h⟩
  · intro cart hr
    induction hr with
    | empty => exact List.nodup_nil
    | step prev next _ hstep ih =>
      cases hstep with
      | add product s c => exact distinctKeys_addToCart product s c prev ih
      | update i q _ _ hu => exact distinctKeys_updateQuantity i q prev next hu ih
      | remove i => exact distinctKeys_removeItem i prev ih
      | clear => exact List.nodup_nil

/-- Claim C3. For every cart, every index and every quantity `q <= 0`,
`updateQuantity(i, q)` produces exactly the cart `removeItem(i)` produces; in
particular, at an in-range index, `updateQuantity(i, 0)` and
`updateQuantity(i, -1)` both yield the cart with line `i` erased. -/
theorem updateQuantity_nonpos_eq_removeItem (cart : Cart) (i q : Int) (hq : q ≤ 0) :
    updateQuantity i q cart = .ok (removeItem i cart)
    ∧ ∀ n : Nat, n < cart.length →
        updateQuantity (n : Int) 0 cart = .ok (cart.eraseIdx n)
        ∧ updateQuantity (n : Int) (-1) cart = .ok (cart.eraseIdx n)
        ∧ (cart.eraseIdx n).length + 1 = cart.length := by
  refine ⟨by simp [updateQuantity, hq], ?_⟩
  intro n hn
  refine ⟨by simp [updateQuantity, removeItem_natCast],
    by simp [updateQuantity, removeItem_natCast], ?_⟩
  rw [List.length_eraseIdx_of_lt hn]
  omega

/-- Claim C4. For every cart of length `n` and every index `0 <= i < n`,
`removeItem(i)` returns a list of length `n - 1` whose line at position `j` is
the old line at `j` for `j < i` and the old line at `j + 1` for `j >= i`. -/
theorem removeItem_shifts_down (cart : Cart) (i : Int) (h0 : 0 ≤ i) (hlt : i < cart.length) :
    (removeItem i cart).length = cart.length - 1
    ∧ ∀ j : Nat,
        ((j : Int) < i → (removeItem i cart)[j]? = cart[j]?)
        ∧ (i ≤ (j : Int) → (removeItem i cart)[j]? = cart[j + 1]?) := by
  obtain ⟨n, rfl⟩ := Int.eq_ofNat_of_zero_le h0
  have hn : n < cart.length := by exact_mod_cast hlt
  rw [removeItem_natCast]
  refine ⟨List.length_eraseIdx_of_lt hn, ?_⟩
  intro j
  refine ⟨fun hj => ?_, fun hj => ?_⟩
  · exact List.getElem?_eraseIdx_of_lt cart n j (by exact_mod_cast hj)
  · exact List.getElem?_eraseIdx_of_ge cart n j (by exact_mod_cast hj)

/-- Claim C5. For every cart of length `n`, every index `0 <= i < n` and every
quantity `q > 0`, `updateQuantity(i, q)` returns a list of the same length in
which the line at position `i` has quantity `q` and every other field (id,
name, category, price, sizes, colors, images, selectedSize, selectedColor) as
before, and in which every other position holds the line it held. -/
theorem updateQuantity_overwrites_in_place (cart : Cart) (i q : Int) (h0 : 0 ≤ i)
    (hlt : i < cart.length) (hq : 0 < q) :
    ∃ (next : Cart) (old new : CartLine),
      updateQuantity i q cart = .ok next
      ∧ next.length = cart.length
      ∧ cart[i.toNat]? = some old ∧ next[i.toNat]? = some new
      ∧ new.quantity = q
      ∧ new.id = old.id ∧ new.name = old.name ∧ new.category = old.category
      ∧ new.price = old.price ∧ new.sizes = old.sizes ∧ new.colors = old.colors
      ∧ new.images = old.images ∧ new.selectedSize = old.selectedSize
      ∧ new.selectedColor = old.selectedColor
      ∧ ∀ j : Nat, (j : Int) ≠ i → next[j]? = cart[j]? := by
  obtain ⟨n, rfl⟩ := Int.eq_ofNat_of_zero_le h0
  have hn : n < cart.length := by exact_mod_cast hlt
  refine ⟨cart.set n { cart[n] with quantity := q }, cart[n], { cart[n] with quantity := q },
    updateQuantity_pos_natCast n q cart hq hn, List.length_set _ _ _, ?_, ?_,
    rfl, rfl, rfl, rfl, rfl, rfl, rfl, rfl, rfl, rfl, ?_⟩
  · simp [List.getElem?_eq_getElem hn]
  · simp [List.getElem?_set, hn]
  · intro j hj
    have hne : n ≠ j := fun h => hj (by rw [h])
    simp [List.getElem?_set, hne]

/-- Claim C6. Quantity invariant: when every line of a cart has quantity at
least 1, the same holds after `addToCart` with any product and selection, after
`updateQuantity` and `removeItem` at every in-range index with every integer
quantity (both produce a cart there), and after `clearCart`; hence no cart
reachable from the empty cart through these operations holds a line with
quantity 0 or below. -/
theorem positiveQuantities_invariant :
    (∀ prev : Cart, PositiveQuantities prev →
      (∀ (product : Product) (s c : Option String),
          PositiveQuantities (addToCart product s c prev))
      ∧ (∀ i q : Int, 0 ≤ i → i < prev.length →
          ∃ next, updateQuantity i q prev = .ok next ∧ PositiveQuantities next)
      ∧ (∀ i : Int, 0 ≤ i → i < prev.length → PositiveQuantities (removeItem i prev))
      ∧ PositiveQuantities (clearCart prev))
    ∧ (∀ cart : Cart, Reachable cart → ∀ item ∈ cart, ¬ item.quantity ≤ 0) := by
  have hnil : PositiveQuantities [] := fun _ hin => absurd hin (List.not_mem_nil _)
  refine ⟨fun prev h => ⟨fun product s c => positiveQuantities_addToCart product s c prev h,
    ?_, fun i _ _ => positiveQuantities_removeItem i prev h, hnil⟩, ?_⟩
  · intro i q h0 hlt
    obtain ⟨next, hnext⟩ := updateQuantity_in_range_ok i q prev h0 hlt
    exact ⟨next, hnext, positiveQuantities_updateQuantity i q prev next hnext h⟩
  · intro cart hr
    have hpos : PositiveQuantities cart := by
      induction hr with
      | empty => exact hnil
      | step prev next _ hstep ih =>
        cases hstep with
        | add product s c => exact positiveQuantities_addToCart product s c prev ih
        | update i q _ _ hu => exact positiveQuantities_updateQuantity i q prev next hu ih
        | remove i => exact positiveQuantities_removeItem i prev ih
        | clear => exact hnil
    intro item hin hle
    have := hpos item hin
    omega

/-- Claim C10. With a quantity `q > 0`, `updateQuantity(i, q)` throws instead of
producing a cart if and only if `i` is outside `0 <= i < n`; for such an
out-of-range `i`, `removeItem(i)` and `updateQuantity(i, q)` with `q <= 0`
produce the cart unchanged. -/
theorem updateQuantity_throws_iff_out_of_range (cart : Cart) (i : Int) :
    (∀ q : Int, 0 < q →
      ((∃ e, updateQuantity i q cart = .error e) ↔ ¬ (0 ≤ i ∧ i < cart.length)))
    ∧ (¬ (0 ≤ i ∧ i < cart.length) →
        removeItem i cart = cart ∧ ∀ q : Int, q ≤ 0 → updateQuantity i q cart = .ok cart) := by
  refine ⟨?_, ?_⟩
  · intro q hq
    constructor
    · rintro ⟨e, he⟩ ⟨h0, hlt⟩
      obtain ⟨next, hnext⟩ := updateQuantity_in_range_ok i q cart h0 hlt
      rw [hnext] at he
      cases he
    · intro hout
      exact updateQuantity_pos_out_of_range i q cart hq (by omega)
  · intro hout
    have hrem : removeItem i cart = cart := removeItem_out_of_range i cart (by omega)
    exact ⟨hrem, fun q hq => by simp [updateQuantity, hq, hrem]⟩

/-- Claim C9 at the inputs where the code departs from it: a stored value that
parses to an object, a non-zero number, a non-empty string or `true` becomes the
initial cart as it is, not the empty list; a read that throws, a missing key
(`null`) and the other falsy values do give the empty list. -/
theorem initialCart_keeps_truthy_value :
    initialCart (.value (.obj [])) = .obj []
    ∧ initialCart (.value (.obj [])) ≠ .arr []
    ∧ initialCart (.value (.num 5)) = .num 5
    ∧ initialCart (.value (.str "cart")) = .str "cart"
    ∧ initialCart (.value (.bool true)) = .bool true
    ∧ initialCart .threw = .arr []
    ∧ initialCart (.value .null) = .arr []
    ∧ initialCart (.value (.num 0)) = .arr []
    ∧ initialCart (.value (.str "")) = .arr []
    ∧ initialCart (.value (.bool false)) = .arr [] := by
  refine ⟨rfl, ?_, rfl, rfl, rfl, rfl, rfl, rfl, rfl, rfl⟩
  intro h
  have h2 : JsonValue.obj [] = JsonValue.arr [] := h
  cases h2

/-- Claim C7. For every product list and every filter state the page can hold
(a category that is `null` or a non-empty string, a maximum price that is
absent or not negative), the catalog filter returns exactly the products `p` of
the list, in their original order and with none duplicated or added, that
satisfy (`c` absent or `p.category = c`) and (`m` absent or zero or
`p.price <= m`); with category "Shoes" and maximum price 0 it returns all Shoes
products in their order, and with maximum price 50 no returned product costs
more than 50. -/
theorem filterCatalog_as_stated (ps : List Product) (c : Option String) (m : Option Int)
    (hc : c ≠ some "") (hm : ∀ v, m = some v → 0 ≤ v) :
    filterCatalog ps c m = ps.filter (keepProductAsStated c m)
    ∧ (filterCatalog ps c m).Sublist ps
    ∧ (∀ p : Product, p ∈ filterCatalog ps c m ↔
        p ∈ ps ∧ (c = none ∨ c = some p.category)
          ∧ (m = none ∨ m = some 0 ∨ ∃ v, m = some v ∧ p.price ≤ v))
    ∧ (∀ p : Product, p ∈ filterCatalog ps c m →
        (filterCatalog ps c m).count p = ps.count p)
    ∧ filterCatalog ps (some "Shoes") (some 0)
        = ps.filter (fun p => decide (p.category = "Shoes"))
    ∧ (∀ p ∈ filterCatalog ps c (some 50), p.price ≤ 50) := by
  have heq : filterCatalog ps c m = ps.filter (keepProductAsStated c m) := by
    simp only [filterCatalog]
    apply List.filter_congr
    intro p _
    exact keepProduct_eq_asStated c m p hc hm
  refine ⟨heq, List.filter_sublist ps, ?_, ?_, ?_, ?_⟩
  · intro p
    rw [heq, List.mem_filter, keepProductAsStated_iff]
  · intro p hp
    have hk : keepProduct c m p = true := (List.mem_filter.mp hp).2
    simp only [filterCatalog]
    exact List.count_filter hk
  · simp only [filterCatalog]
    apply List.filter_congr
    intro p _
    rw [keepProduct_eq_asStated (some "Shoes") (some 0) p (by decide)
      (fun v hv => by rw [← Option.some.inj hv])]
    simp [keepProductAsStated]
  · intro p hp
    have hk : keepProduct c (some 50) p = true := (List.mem_filter.mp hp).2
    obtain ⟨_, hprice⟩ := (keepProduct_iff c (some 50) p).mp hk
    rcases hprice with h | ⟨v, hv, hle⟩
    · cases h
    · have hv50 : v = 50 := (Option.some.inj hv).symm
      subst hv50
      omega

/-- Claim C8, as the code has it. For every cart with integer prices and integer
quantities in which every product price * quantity and every partial sum of
these products has magnitude at most `2 ^ 53`, the cart total is the sum over
all lines of price * quantity, with no rounding; it is 0 for the empty cart, and
two lines with (price 120, quantity 2) and (price 45, quantity 1) total 285. -/
theorem total_exact_within_two_pow_53 (cart : Cart)
    (hprod : ∀ item ∈ cart, |item.price * item.quantity| ≤ 2 ^ 53)
    (hsum : ∀ k : Nat, k ≤ cart.length →
      |((cart.take k).map (fun item => item.price * item.quantity)).sum| ≤ 2 ^ 53) :
    total cart = some (((cart.map (fun item => item.price * item.quantity)).sum : Int) : ℚ)
    ∧ total [] = some 0
    ∧ ∀ a b : CartLine, a.price = 120 → a.quantity = 2 → b.price = 45 → b.quantity = 1 →
        total [a, b] = some 285 := by
  refine ⟨?_, by simp [total, totalOf], ?_⟩
  · have h := foldl_total_exact cart 0 hprod (fun k hk => by simpa using hsum k hk)
    simpa [total, totalOf] using h
  · intro a b ha1 ha2 hb1 hb2
    have h := foldl_total_exact [a, b] 0
      (by
        intro item hin
        rcases List.mem_cons.mp hin with rfl | hin
        · rw [ha1, ha2]; decide
        · rcases List.mem_cons.mp hin with rfl | hin
          · rw [hb1, hb2]; decide
          · cases hin)
      (by
        intro k hk
        have hk2 : k ≤ 2 := by simpa using hk
        interval_cases k <;> simp [ha1, ha2, hb1, hb2])
    simp only [total, totalOf]
    rw [show (some (0 : ℚ)) = some (((0 : Int)) : ℚ) by simp, h]
    simp [ha1, ha2, hb1, hb2]

/-- Claim C8, as stated, fails in binary64. The number `0.1` is the binary64
number `3602879701896397 / 2 ^ 55`, and one line with that price in quantity 3
totals `1351079888211149 / 2 ^ 52` (printed 0.30000000000000004), which is not
three times the price; two lines with the integer prices `2 ^ 53` and 1, each in
quantity 1, total `2 ^ 53`, which is not their sum `2 ^ 53 + 1`. -/
theorem total_rounds_to_binary64 :
    roundF64 (1 / 10) = some (3602879701896397 / 2 ^ 55)
    ∧ totalOf [(3602879701896397 / 2 ^ 55, 3)] = some (1351079888211149 / 2 ^ 52)
    ∧ (3602879701896397 : ℚ) / 2 ^ 55 * 3 ≠ 1351079888211149 / 2 ^ 52
    ∧ total largeCart = some (2 ^ 53)
    ∧ (largeCart.map (fun item => item.price * item.quantity)).sum = 2 ^ 53 + 1 := by
  have htenth : roundF64 (1 / 10) = some (3602879701896397 / 2 ^ 55) := by
    have h := roundF64_of_binade (1 / 10) (-4) 7205759403792794 (by norm_num)
      (by norm_num [abs_of_pos]) (by norm_num [abs_of_pos]) (by norm_num)
      (by
        have hsplit : ((1 : ℚ) / 10) / 2 ^ ((-4 : Int) - 52)
            = ((7205759403792793 : Int) : ℚ) + 3 / 5 := by
          norm_num
        rw [hsplit, roundTiesToEven_above_half _ _ (by norm_num) (by norm_num)]
        norm_num)
      (by norm_num [abs_of_pos])
    rw [h]
    norm_num
  have hthree : roundF64 (3602879701896397 / 2 ^ 55 * 3)
      = some (1351079888211149 / 2 ^ 52) := by
    have h := roundF64_of_binade (3602879701896397 / 2 ^ 55 * 3) (-2) 5404319552844596
      (by norm_num) (by norm_num [abs_of_pos]) (by norm_num [abs_of_pos]) (by norm_num)
      (by
        have hsplit : ((3602879701896397 : ℚ) / 2 ^ 55 * 3) / 2 ^ ((-2 : Int) - 52)
            = ((5404319552844595 : Int) : ℚ) + 1 / 2 := by
          norm_num
        rw [hsplit, roundTiesToEven_add_half]
        norm_num)
      (by norm_num [abs_of_pos])
    rw [h]
    norm_num
  have hbig : roundF64 (2 ^ 53 + 1) = some (2 ^ 53) := by
    have h := roundF64_of_binade (2 ^ 53 + 1) 53 (2 ^ 52) (by norm_num)
      (by norm_num [abs_of_pos]) (by norm_num [abs_of_pos]) (by norm_num)
      (by
        have hsplit : ((2 : ℚ) ^ 53 + 1) / 2 ^ ((53 : Int) - 52)
            = ((2 ^ 52 : Int) : ℚ) + 1 / 2 := by
          norm_num
        rw [hsplit, roundTiesToEven_add_half]
        norm_num)
      (by norm_num [abs_of_pos])
    rw [h]
    norm_num
  have hpow : roundF64 (2 ^ 53) = some (2 ^ 53) := by
    have h := roundF64_intCast (2 ^ 53) (by norm_num)
    simpa using h
  have hone : roundF64 1 = some 1 := by
    have h := roundF64_intCast 1 (by norm_num)
    simpa using h
  refine ⟨htenth, ?_, by norm_num, ?_, by norm_num [largeCart, newLine]⟩
  · have h0 : (0 : ℚ) + 3602879701896397 / 2 ^ 55 * 3 = 3602879701896397 / 2 ^ 55 * 3 :=
      zero_add _
    have hmul : roundF64 (1351079888211149 / 2 ^ 52) = some (1351079888211149 / 2 ^ 52) := by
      have h := roundF64_of_binade (1351079888211149 / 2 ^ 52) (-2) 5404319552844596
        (by norm_num) (by norm_num [abs_of_pos]) (by norm_num [abs_of_pos]) (by norm_num)
        (by
          have hsplit : ((1351079888211149 : ℚ) / 2 ^ 52) / 2 ^ ((-2 : Int) - 52)
              = ((5404319552844596 : Int) : ℚ) := by
            norm_num
          rw [hsplit, roundTiesToEven_intCast])
        (by norm_num [abs_of_pos])
      rw [h]
      norm_num
    unfold totalOf
    rw [List.foldl_cons, List.foldl_nil, mulF64_some, hthree, addF64_some, zero_add, hmul]
  · have hp : ((9007199254740992 : Int) : ℚ) = 2 ^ 53 := by norm_num
    have hmap : largeCart.map (fun item => ((item.price : ℚ), (item.quantity : ℚ)))
        = [(((9007199254740992 : Int) : ℚ), ((1 : Int) : ℚ)),
           (((1 : Int) : ℚ), ((1 : Int) : ℚ))] := rfl
    unfold total totalOf
    rw [hmap, List.foldl_cons, List.foldl_cons, List.foldl_nil, hp, Int.cast_one]
    rw [mulF64_some, mul_one, hpow, addF64_some, zero_add, hpow, mulF64_some, mul_one, hone,
      addF64_some, hbig]

/-! ## The claims at concrete carts -/

/-- The sample cart is reachable: it is built by four `addToCart` calls. -/
theorem sampleCart_reachable : Reachable sampleCart :=
  Reachable.step _ _
    (Reachable.step _ _
      (Reachable.step _ _
        (Reachable.step _ _ Reachable.empty
          (Step.add pegasus (some "9") (some "Black") []))
        (Step.add hoodie (some "M") (some "Grey") _))
      (Step.add pegasus (some "9") (some "Black") _))
    (Step.add backpack none (some "Blue") _)

/-- No two lines of the sample cart share an identity. -/
theorem sampleCart_distinctKeys : DistinctKeys sampleCart := by
  unfold DistinctKeys
  decide

/-- Every line of the sample cart has quantity at least 1. -/
theorem sampleCart_positiveQuantities : PositiveQuantities sampleCart := by
  unfold PositiveQuantities
  decide

/-- Claim C1 on the running shoe in size 9 black: added to the empty cart it is
appended with quantity 1, added twice it is one line with quantity 2, added in
sizes 9 and 10 it gives two lines, and added to the sample cart, which holds
it at position 0, it raises that quantity. -/
theorem addToCart_increments_or_appends_witness :
    addToCart pegasus (some "9") (some "Black") []
        = [] ++ [{ id := pegasus.id, name := pegasus.name, category := pegasus.category,
                   price := pegasus.price, sizes := pegasus.sizes,
                   colors := pegasus.colors, images := pegasus.images,
                   selectedSize := some "9", selectedColor := some "Black", quantity := 1 }]
    ∧ addToCart pegasus (some "9") (some "Black")
          (addToCart pegasus (some "9") (some "Black") [])
        = [] ++ [{ newLine pegasus (some "9") (some "Black") with quantity := 2 }]
    ∧ addToCart pegasus (some "10") (some "Black")
          (addToCart pegasus (some "9") (some "Black") [])
        = [] ++ [newLine pegasus (some "9") (some "Black"),
                 newLine pegasus (some "10") (some "Black")]
    ∧ (addToCart pegasus (some "9") (some "Black") sampleCart).length = sampleCart.length :=
  ⟨(addToCart_increments_or_appends pegasus (some "9") (some "Black") []).2.1
      (by decide),
   ((addToCart_increments_or_appends pegasus (some "9") (some "Black") []).2.2.1
      (by decide)).1,
   ((addToCart_increments_or_appends pegasus (some "9") (some "Black") []).2.2.2
      (some "10") (by decide)).1 (by decide) (by decide),
   by
    obtain ⟨_, _, _, _, hlen, _⟩ :=
      (addToCart_increments_or_appends pegasus (some "9") (some "Black") sampleCart).1
        (by decide)
    exact hlen⟩

/-- Claim C2 on the sample cart. -/
theorem distinctKeys_invariant_witness :
    DistinctKeys (addToCart pegasus (some "10") none sampleCart)
    ∧ (∃ next, updateQuantity 1 4 sampleCart = .ok next ∧ DistinctKeys next)
    ∧ DistinctKeys (removeItem 1 sampleCart)
    ∧ DistinctKeys (clearCart sampleCart)
    ∧ DistinctKeys sampleCart :=
  ⟨(distinctKeys_invariant.1 sampleCart sampleCart_distinctKeys).1 pegasus (some "10") none,
   (distinctKeys_invariant.1 sampleCart sampleCart_distinctKeys).2.1 1 4
      (by decide) (by decide),
   (distinctKeys_invariant.1 sampleCart sampleCart_distinctKeys).2.2.1 1
      (by decide) (by decide),
   (distinctKeys_invariant.1 sampleCart sampleCart_distinctKeys).2.2.2,
   distinctKeys_invariant.2 sampleCart sampleCart_reachable⟩

/-- Claim C3 on the sample cart: quantity 0 at index 1 removes the hoodie. -/
theorem updateQuantity_nonpos_eq_removeItem_witness :
    updateQuantity 1 0 sampleCart = .ok (removeItem 1 sampleCart)
    ∧ updateQuantity ((1 : Nat) : Int) 0 sampleCart = .ok (sampleCart.eraseIdx 1)
    ∧ updateQuantity ((1 : Nat) : Int) (-1) sampleCart = .ok (sampleCart.eraseIdx 1)
    ∧ (sampleCart.eraseIdx 1).length + 1 = sampleCart.length :=
  ⟨(updateQuantity_nonpos_eq_removeItem sampleCart 1 0 (by decide)).1,
   (updateQuantity_nonpos_eq_removeItem sampleCart 1 0 (by decide)).2 1 (by decide)⟩

/-- Claim C4 on the sample cart: removing index 1 keeps position 0 and moves
the line of position 2 to position 1. -/
theorem removeItem_shifts_down_witness :
    (removeItem 1 sampleCart).length = sampleCart.length - 1
    ∧ (removeItem 1 sampleCart)[0]? = sampleCart[0]?
    ∧ (removeItem 1 sampleCart)[1]? = sampleCart[1 + 1]? :=
  ⟨(removeItem_shifts_down sampleCart 1 (by decide) (by decide)).1,
   ((removeItem_shifts_down sampleCart 1 (by decide) (by decide)).2 0).1 (by decide),
   ((removeItem_shifts_down sampleCart 1 (by decide) (by decide)).2 1).2 (by decide)⟩

/-- Claim C5 on the sample cart: quantity 4 at index 1. -/
theorem updateQuantity_overwrites_in_place_witness :
    ∃ next : Cart, updateQuantity 1 4 sampleCart = .ok next
      ∧ next.length = sampleCart.length
      ∧ next[0]? = sampleCart[0]? := by
  obtain ⟨next, _, _, hok, hlen, _, _, _, _, _, _, _, _, _, _, _, _, hframe⟩ :=
    updateQuantity_overwrites_in_place sampleCart 1 4 (by decide) (by decide) (by decide)
  exact ⟨next, hok, hlen, hframe 0 (by decide)⟩

/-- Claim C6 on the sample cart. -/
theorem positiveQuantities_invariant_witness :
    PositiveQuantities (addToCart pegasus (some "10") none sampleCart)
    ∧ (∃ next, updateQuantity 1 (-3) sampleCart = .ok next ∧ PositiveQuantities next)
    ∧ PositiveQuantities (removeItem 1 sampleCart)
    ∧ PositiveQuantities (clearCart sampleCart)
    ∧ ∀ item ∈ sampleCart, ¬ item.quantity ≤ 0 :=
  ⟨(positiveQuantities_invariant.1 sampleCart sampleCart_positiveQuantities).1
      pegasus (some "10") none,
   (positiveQuantities_invariant.1 sampleCart sampleCart_positiveQuantities).2.1 1 (-3)
      (by decide) (by decide),
   (positiveQuantities_invariant.1 sampleCart sampleCart_positiveQuantities).2.2.1 1
      (by decide) (by decide),
   (positiveQuantities_invariant.1 sampleCart sampleCart_positiveQuantities).2.2.2,
   positiveQuantities_invariant.2 sampleCart sampleCart_reachable⟩

/-- Claim C7 on the catalog: with category Shoes and maximum price 50 the result
is what the stated condition selects, with maximum price 50 the backpack is
returned and costs at most 50, and with category Shoes and maximum price 0 the
result is the Shoes products. -/
theorem filterCatalog_as_stated_witness :
    filterCatalog products (some "Shoes") (some 50)
        = products.filter (keepProductAsStated (some "Shoes") (some 50))
    ∧ backpack.price ≤ 50
    ∧ filterCatalog products (some "Shoes") (some 0)
        = products.filter (fun p => decide (p.category = "Shoes")) :=
  ⟨(filterCatalog_as_stated products (some "Shoes") (some 50) (by decide)
      (fun v hv => by rw [← Option.some.inj hv]; decide)).1,
   (filterCatalog_as_stated products none (some 50) (by decide)
      (fun v hv => by rw [← Option.some.inj hv]; decide)).2.2.2.2.2 backpack (by decide),
   (filterCatalog_as_stated products none (some 50) (by decide)
      (fun v hv => by rw [← Option.some.inj hv]; decide)).2.2.2.2.1⟩

/-- The sample cart, line by line. -/
theorem sampleCart_eq :
    sampleCart = [{ newLine pegasus (some "9") (some "Black") with quantity := 2 },
                  newLine hoodie (some "M") (some "Grey"),
                  newLine backpack none (some "Blue")] := by
  decide

/-- Claim C8 on the sample cart, whose products 240, 65 and 45 and partial sums
0, 240, 305 and 350 are all within `2 ^ 53`, and on two lines with
(price 120, quantity 2) and (price 45, quantity 1). -/
theorem total_exact_within_two_pow_53_witness :
    total sampleCart
        = some (((sampleCart.map (fun item => item.price * item.quantity)).sum : Int) : ℚ)
    ∧ total [{ newLine pegasus (some "9") (some "Black") with quantity := 2 },
             newLine backpack none (some "Blue")] = some 285 :=
  ⟨(total_exact_within_two_pow_53 sampleCart
      (by
        rw [sampleCart_eq]
        intro item hin
        simp only [List.mem_cons, List.mem_singleton, List.not_mem_nil, or_false] at hin
        rcases hin with rfl | rfl | rfl <;> norm_num [newLine, pegasus, hoodie, backpack])
      (by
        rw [sampleCart_eq]
        intro k hk
        have hk3 : k ≤ 3 := by simpa using hk
        interval_cases k <;> norm_num [newLine, pegasus, hoodie, backpack])).1,
   (total_exact_within_two_pow_53 [] (by simp) (by simp)).2.2
      { newLine pegasus (some "9") (some "Black") with quantity := 2 }
      (newLine backpack none (some "Blue")) rfl rfl rfl rfl⟩

/-- Claim C10 on the sample cart of three lines: index 3 is out of range, so
quantity 5 throws, while `removeItem(3)` and quantity 0 leave the cart as it is. -/
theorem updateQuantity_throws_iff_out_of_range_witness :
    (∃ e, updateQuantity 3 5 sampleCart = .error e)
    ∧ removeItem 3 sampleCart = sampleCart
    ∧ updateQuantity 3 0 sampleCart = .ok sampleCart :=
  ⟨((updateQuantity_throws_iff_out_of_range sampleCart 3).1 5 (by decide)).mpr (by decide),
   ((updateQuantity_throws_iff_out_of_range sampleCart 3).2 (by decide)).1,
   ((updateQuantity_throws_iff_out_of_range sampleCart 3).2 (by decide)).2 0 (by decide)⟩

end CartStore
